import Mathlib

/-!
Verification of the line-splitting core of `weasyprint/text.py`.

The module under verification sits on top of the Pango shaping engine.  Per
the specification, the engine itself is an external collaborator: it is
modelled here as an abstract `Engine` turning a text and an optional
fixed-point width constraint into a `Layout` (a nonempty list of lines, each
carrying a UTF-8 byte length and a UTF-8 byte start offset).  A fixed
computed style and hinting flag are folded into the `Engine` value, so
quantifying over engines quantifies over styles, hinting flags and engine
behaviours at once.

Python unicode strings are modelled as `List Char`; the `encode / slice /
decode` idiom of the source is modelled by `utf8Take` and `utf8Drop`, which
return `none` exactly when the byte slice would cut a UTF-8 sequence in the
middle (a `UnicodeDecodeError` in Python).  Results of effectful code are
doubly optional: the outer `none` means the Python loop would spin forever
(fuel exhaustion), the inner `none` means an uncaught Python exception.
-/

/-- Total UTF-8 byte length of a Python unicode string, `len` of the UTF-8
encoding of `s`. -/
def utf8Len (s : List Char) : Nat :=
  (s.map Char.utf8Size).sum

/-- Python byte slicing `s.encode(utf8)[:n].decode(utf8)`: the first `n`
UTF-8 bytes of `s` decoded back, `none` when byte `n` falls inside a
multi-byte sequence (Python raises `UnicodeDecodeError`).  An `n` beyond the total byte length
yields the whole string, as Python slicing does. -/
def utf8Take (n : Nat) (s : List Char) : Option (List Char) :=
  match n, s with
  | 0, _ => some []
  | _ + 1, [] => some []
  | n + 1, c :: rest =>
    if c.utf8Size ≤ n + 1 then
      (utf8Take (n + 1 - c.utf8Size) rest).map (c :: ·)
    else
      none

/-- Python byte slicing `s.encode(utf8)[n:].decode(utf8)`: drop the first
`n` UTF-8 bytes of `s`, `none` when byte `n` falls inside a multi-byte
sequence.  An `n` beyond
the total byte length yields the empty string, as Python slicing does. -/
def utf8Drop (n : Nat) (s : List Char) : Option (List Char) :=
  match n, s with
  | 0, s => some s
  | _ + 1, [] => some []
  | n + 1, c :: rest =>
    if c.utf8Size ≤ n + 1 then
      utf8Drop (n + 1 - c.utf8Size) rest
    else
      none

/-- Python `s.rstrip(' ')`: remove trailing space characters (only U+0020,
exactly the argument given at `text.py:245` and `text.py:250`). -/
def rstrip_spaces (s : List Char) : List Char :=
  (s.reverse.dropWhile (· = ' ')).reverse

/-- Python `'\n'.join(lines)` (`text.py:275`). -/
def joinNL : List (List Char) → List Char
  | [] => []
  | [l] => l
  | l :: ls => l ++ '\n' :: joinNL ls

/-- One line of a Pango layout, as consumed by the source: its UTF-8 byte
`length` and its UTF-8 byte `start_index` into the layout text (§6 of the
spec: "byte length, byte start-offset"). -/
structure PLine where
  length : Nat
  start_index : Nat
deriving DecidableEq

/-- A shaped Pango layout: the list of produced lines.  Pango guarantees at
least one line for every text, including the empty one (§6: line count ≥ 1);
engines used as concrete witnesses below respect this. -/
structure Layout where
  lines : List PLine
deriving DecidableEq

/-- Pango `layout.get_line(i)`. -/
def Layout.get_line (L : Layout) (i : Nat) : PLine :=
  L.lines.getD i ⟨0, 0⟩

/-- Pango `layout.get_line_count()`. -/
def Layout.get_line_count (L : Layout) : Nat :=
  L.lines.length

/-- The abstract shaping engine for one fixed (style, hinting) pair: text and
optional fixed-point width constraint (in Pango units; `none` = the width was
left unconstrained, i.e. `layout.set_width` was never called) to shaped
layout. -/
structure Engine where
  shape : List Char → Option Int → Layout

/-- The constant `Pango.SCALE`, the fixed-point scale (1024). -/
def PANGO_SCALE : Int := 1024

/-- Source `units_from_double(value) = int(value * Pango.SCALE)`
(`text.py:138`):
Python `int(...)` truncates toward zero, and for a rational
`value = num / den` (with `den > 0`) the truncation of `value * 1024` is
exactly `(num * 1024).tdiv den`, written that way so that it evaluates by
kernel reduction. -/
def units_from_double (value : ℚ) : Int :=
  (value.num * PANGO_SCALE).tdiv (value.den : Int)

/-- Source `units_to_double(value) = value / Pango.SCALE` with true division
(`text.py:142`). -/
def units_to_double (value : Int) : ℚ :=
  (value : ℚ) / (PANGO_SCALE : ℚ)

/-- The width constraint `create_temp_layout` actually installs
(`text.py:172-175`): `layout.set_width(units_from_double(max_width))` is
called exactly when `max_width is not None and max_width < 2 ** 21`;
otherwise the layout width is left unconstrained. -/
def effective_width (max_width : Option ℚ) : Option Int :=
  match max_width with
  | none => none
  | some w => if w < 2097152 then some (units_from_double w) else none
  -- 2097152 = 2 ** 21, written as a numeral so that it evaluates by
  -- kernel reduction

/-- Source `create_temp_layout(text, style, hinting, max_width)`
(`text.py:147-189`).
Font-description setup, wrap mode and the spacing-markup injection are
engine-side per §6 and are folded into the abstract `Engine` (which stands
for one fixed style and hinting flag); the width-constraint logic of lines
172-175 is `effective_width`. -/
def create_temp_layout (E : Engine) (text : List Char) (max_width : Option ℚ) : Layout :=
  E.shape text (effective_width max_width)

/-- Python truthiness of `max_width` (`if not max_width:` at `text.py:212`):
`None` and `0` are falsy. -/
def is_truthy : Option ℚ → Bool
  | none => false
  | some w => decide (w ≠ 0)

/-- The mutable accumulators of the reconciliation loop of `create_layout`
(`text.py:215-218`): the remaining `text` plus the `lines`,
`character_differences` and `line_break_differences` lists. -/
structure LoopState where
  text : List Char
  lines : List (List Char)
  cdiffs : List Int
  lbdiffs : List Int
deriving DecidableEq

/-- Outcome of one iteration of the `while text:` loop body:
`next` = fall through to the next `while` test (including the `continue` of
the forced-break branch), `done` = the `break` of the single-line branch,
`exn` = an uncaught Python exception (a `UnicodeDecodeError` from one of the
`encode/slice/decode` steps). -/
inductive StepOut where
  | next : LoopState → StepOut
  | done : LoopState → StepOut
  | exn : StepOut
deriving DecidableEq

/-- One iteration of the `while text:` body of `create_layout`
(`text.py:218-270`), translated statement by statement. -/
def reconcile_step (E : Engine) (mw : Option ℚ) (st : LoopState) : StepOut :=
  let layout := create_temp_layout E st.text mw
  let first_line := layout.get_line 0
  let number_of_lines := layout.get_line_count
  let first_line_length := first_line.length
  match utf8Take first_line_length st.text with
  | none => .exn
  | some first_line_text =>
    if 1 < number_of_lines then
      if first_line_length = 0 then
        -- Replace the line break character by \n  (text.py:228-235)
        let character_length := (layout.get_line 1).start_index
        match utf8Drop character_length st.text with
        | none => .exn
        | some t' =>
          .next ⟨t', st.lines ++ [['\n']], st.cdiffs ++ [0],
                 st.lbdiffs ++ [(character_length : Int) - 1]⟩
      else
        match utf8Drop first_line_length st.text with
        | none => .exn
        | some next_text =>
          if next_text.isEmpty then
            -- `if next_text:` is false: the body falls through without
            -- touching any accumulator (text.py:238)
            .next st
          else
            let next_word_layout := create_temp_layout E next_text (some 0)
            let word_line := next_word_layout.get_line 0
            let word_length := word_line.length
            match utf8Take word_length next_text with
            | none => .exn
            | some word_text =>
              let stripped_word_text := rstrip_spaces word_text
              let first_line_layout :=
                create_temp_layout E (first_line_text ++ stripped_word_text) mw
              if 1 < first_line_layout.get_line_count then
                let line_text := rstrip_spaces first_line_text
                .next ⟨next_text, st.lines ++ [line_text],
                       st.cdiffs ++ [(line_text.length : Int) - (first_line_text.length : Int)],
                       st.lbdiffs ++ [0]⟩
              else
                -- `text = text[first_line_length + word_length:]`
                -- (text.py:259): a CHARACTER slice of the Python string,
                -- indexed by a sum of UTF-8 BYTE lengths
                .next ⟨st.text.drop (first_line_length + word_length),
                       st.lines ++ [first_line_text ++ stripped_word_text],
                       st.cdiffs ++ [(stripped_word_text.length : Int) - (word_text.length : Int)],
                       st.lbdiffs ++ [0]⟩
    else
      -- single-line branch (text.py:261-270); the rstrip is commented out
      -- in the source, so line_text = first_line_text
      let line_text := first_line_text
      .done ⟨st.text, st.lines ++ [line_text],
             st.cdiffs ++ [(line_text.length : Int) - (first_line_text.length : Int)],
             st.lbdiffs ++ [0]⟩

/-- The state an iteration completes with, when it completes (`none` for the
exception outcome). -/
def out_state : StepOut → Option LoopState
  | .next s => some s
  | .done s => some s
  | .exn => none

/-- The `while text:` loop of `create_layout`, driven by fuel.  A result of
`none` means the fuel ran out, i.e. the Python loop would still be running;
`some none` = an uncaught exception; `some (some acc)` = normal completion
with the three accumulator lists. -/
def run_loop (E : Engine) (mw : Option ℚ) :
    Nat → LoopState → Option (Option (List (List Char) × List Int × List Int))
  | 0, _ => none
  | fuel + 1, st =>
    if st.text.isEmpty then
      some (some (st.lines, st.cdiffs, st.lbdiffs))
    else
      match reconcile_step E mw st with
      | .exn => some none
      | .done st' => some (some (st'.lines, st'.cdiffs, st'.lbdiffs))
      | .next st' => run_loop E mw fuel st'

/-- The accumulators produced by the reconciliation loop of `create_layout`
on `text`, starting from empty lists.  The fuel `text.length + 1` is
justified by the termination theorem for claim C2: under the sanity facts of
the Pango contract every iteration strictly shortens `text`, so the loop
never needs more than `text.length` iterations. -/
def create_layout_acc (E : Engine) (text : List Char) (mw : Option ℚ) :
    Option (Option (List (List Char) × List Int × List Int)) :=
  run_loop E mw (text.length + 1) ⟨text, [], [], []⟩

/-- Source `create_layout(text, style, hinting, max_width)`
(`text.py:192-276`).
Outer `none` = the loop would not terminate; `some none` = uncaught Python
exception; `some (some (layout, character_differences,
line_break_differences))` = the returned triple. -/
def create_layout (E : Engine) (text : List Char) (mw : Option ℚ) :
    Option (Option (Layout × List Int × List Int)) :=
  if is_truthy mw then
    match create_layout_acc E text mw with
    | none => none
    | some none => some none
    | some (some (ls, cd, lb)) =>
      some (some (create_temp_layout E (joinNL ls) mw, cd, lb))
  else
    -- `if not max_width:` fast path (text.py:212-213)
    some (some (create_temp_layout E text mw, [0], [0]))

/-- The parts of the return value of `split_first_line` the claims are
about.  The pixel `width`, `height` and `baseline` components are direct
extent queries on the engine (§6) and are not modelled. -/
structure SplitResult where
  layout : Layout
  length : Int
  resume_at : Option Int
deriving DecidableEq

/-- Source `split_first_line(text, style, hinting, max_width)`
(`text.py:279-307`).
`char_diff[0]` on an empty list raises `IndexError` in Python, hence the
`some none` (uncaught exception) outcome for an empty `char_diff`. -/
def split_first_line (E : Engine) (text : List Char) (mw : Option ℚ) :
    Option (Option SplitResult) :=
  match create_layout E text mw with
  | none => none
  | some none => some none
  | some (some (layout, char_diff, lb_diff)) =>
    match char_diff with
    | [] => some none
    | cd0 :: _ =>
      let first_line := layout.get_line 0
      let length : Int := (first_line.length : Int) - cd0
      let resume_at : Option Int :=
        if 2 ≤ layout.get_line_count then
          some ((((layout.get_line 1).start_index : Int)) +
                (if 1 < lb_diff.length then lb_diff.getD 1 0 else 0))
        else
          none
      some (some ⟨layout, length, resume_at⟩)

/-- Modelled from the spec (§4.3 step 3), for the refinement comparison of
claim C4: the same reconciliation step as the source `reconcile_step`, but
with the isolated next-word layout built directly at the engine width `ww`.
The spec words say the next word is shaped "in isolation (unconstrained
width)", i.e. `ww = none`; the source instead passes the Python number `0`
through `create_temp_layout`, which installs it as a zero-width constraint
(`some 0`). -/
def reconcile_step_word_at (E : Engine) (ww : Option Int) (mw : Option ℚ)
    (st : LoopState) : StepOut :=
  let layout := create_temp_layout E st.text mw
  let first_line := layout.get_line 0
  let number_of_lines := layout.get_line_count
  let first_line_length := first_line.length
  match utf8Take first_line_length st.text with
  | none => .exn
  | some first_line_text =>
    if 1 < number_of_lines then
      if first_line_length = 0 then
        let character_length := (layout.get_line 1).start_index
        match utf8Drop character_length st.text with
        | none => .exn
        | some t' =>
          .next ⟨t', st.lines ++ [['\n']], st.cdiffs ++ [0],
                 st.lbdiffs ++ [(character_length : Int) - 1]⟩
      else
        match utf8Drop first_line_length st.text with
        | none => .exn
        | some next_text =>
          if next_text.isEmpty then
            .next st
          else
            let next_word_layout := E.shape next_text ww
            let word_line := next_word_layout.get_line 0
            let word_length := word_line.length
            match utf8Take word_length next_text with
            | none => .exn
            | some word_text =>
              let stripped_word_text := rstrip_spaces word_text
              let first_line_layout :=
                create_temp_layout E (first_line_text ++ stripped_word_text) mw
              if 1 < first_line_layout.get_line_count then
                let line_text := rstrip_spaces first_line_text
                .next ⟨next_text, st.lines ++ [line_text],
                       st.cdiffs ++ [(line_text.length : Int) - (first_line_text.length : Int)],
                       st.lbdiffs ++ [0]⟩
              else
                .next ⟨st.text.drop (first_line_length + word_length),
                       st.lines ++ [first_line_text ++ stripped_word_text],
                       st.cdiffs ++ [(stripped_word_text.length : Int) - (word_text.length : Int)],
                       st.lbdiffs ++ [0]⟩
    else
      let line_text := first_line_text
      .done ⟨st.text, st.lines ++ [line_text],
             st.cdiffs ++ [(line_text.length : Int) - (first_line_text.length : Int)],
             st.lbdiffs ++ [0]⟩

/-- Sanity fact of the Pango contract used for termination and sign
invariants: when a nonempty text wraps onto more than one line with an empty
first line (a forced break), the second line starts after the break
character, i.e. at byte offset at least 1. -/
def forced_break_sane (E : Engine) : Prop :=
  ∀ t w, t ≠ [] → 1 < (E.shape t w).get_line_count →
    ((E.shape t w).get_line 0).length = 0 →
    1 ≤ ((E.shape t w).get_line 1).start_index

/-- Sanity fact of the Pango contract: when a nonempty text wraps onto more
than one line, the first line does not already cover the whole text. -/
def wrap_sane (E : Engine) : Prop :=
  ∀ t w, t ≠ [] → 1 < (E.shape t w).get_line_count →
    ((E.shape t w).get_line 0).length < utf8Len t

/-- A degenerate engine that shapes every text as a single line covering all
of it: the behaviour of Pango whenever nothing forces a break. -/
def Eone : Engine :=
  ⟨fun t _ => ⟨[⟨utf8Len t, 0⟩]⟩⟩

/-- A constant forced-break engine: every shape has an empty first line and a
second line starting at byte 1, as Pango reports for a text beginning with a
newline character. -/
def Efb : Engine :=
  ⟨fun _ _ => ⟨[⟨0, 0⟩, ⟨1, 1⟩]⟩⟩

/-- Pango-consistent table engine for the character-slice bug of the
word-overflow fit branch: at a width whose fixed-point value is 4096 the
text made of eacute (2 UTF-8 bytes), then `a b c`, wraps after its first
4 bytes; the next word shaped at width 0 is `b` plus its trailing space;
the tentative first line plus stripped word fits on one line. -/
def Ec3 : Engine :=
  ⟨fun t w =>
    if t = "éa b c".toList ∧ w = some 4096 then ⟨[⟨4, 0⟩, ⟨3, 4⟩]⟩
    else if t = "b c".toList ∧ w = some 0 then ⟨[⟨2, 0⟩, ⟨1, 2⟩]⟩
    else if t = "éa b".toList ∧ w = some 4096 then ⟨[⟨5, 0⟩]⟩
    else ⟨[⟨utf8Len t, 0⟩]⟩⟩

/-- Pango-consistent table engine distinguishing a zero width constraint from
an unconstrained width on the isolated next-word text `bb cc`: at width 0 its
first line is the word `bb` plus trailing space, unconstrained it is one
line. -/
def Ec4 : Engine :=
  ⟨fun t w =>
    if t = "a bb cc".toList ∧ w = some 2048 then ⟨[⟨2, 0⟩, ⟨5, 2⟩]⟩
    else if t = "bb cc".toList ∧ w = some 0 then ⟨[⟨3, 0⟩, ⟨2, 3⟩]⟩
    else if t = "bb cc".toList ∧ w = none then ⟨[⟨5, 0⟩]⟩
    else if t = "a bb".toList ∧ w = some 2048 then ⟨[⟨4, 0⟩]⟩
    else ⟨[⟨utf8Len t, 0⟩]⟩⟩

/-- Pango-consistent table engine for the idempotence counterexample: at the
relevant width `hello world` wraps after `hello ` (6 bytes, trailing space
kept by the engine); the rejoined `hello` newline `world` wraps after
`hello` with the second line starting at byte 6; a text starting with a
newline has an empty first line and a second line starting at byte 1. -/
def Eidem : Engine :=
  ⟨fun t _ =>
    if t = "hello world".toList then ⟨[⟨6, 0⟩, ⟨5, 6⟩]⟩
    else if t = "hello\nworld".toList then ⟨[⟨5, 0⟩, ⟨5, 6⟩]⟩
    else if t = "\nworld".toList then ⟨[⟨0, 0⟩, ⟨5, 1⟩]⟩
    else ⟨[⟨utf8Len t, 0⟩]⟩⟩

theorem rstrip_spaces_length_le (s : List Char) :
    (rstrip_spaces s).length ≤ s.length := by
  unfold rstrip_spaces
  calc (s.reverse.dropWhile (· = ' ')).reverse.length
      = (s.reverse.dropWhile (· = ' ')).length := by simp
    _ ≤ s.reverse.length := ((List.dropWhile_suffix _).sublist).length_le
    _ = s.length := by simp

theorem utf8Len_cons (c : Char) (s : List Char) :
    utf8Len (c :: s) = c.utf8Size + utf8Len s := by
  simp [utf8Len]

theorem utf8Drop_length_le (s : List Char) :
    ∀ (n : Nat) (s' : List Char), utf8Drop n s = some s' → s'.length ≤ s.length := by
  induction s with
  | nil =>
    intro n s' h
    cases n with
    | zero => simp [utf8Drop] at h; simp [h]
    | succ m => simp [utf8Drop] at h; simp [← h]
  | cons c rest ih =>
    intro n s' h
    cases n with
    | zero =>
      simp [utf8Drop] at h
      simp [← h]
    | succ m =>
      simp only [utf8Drop] at h
      split at h
      · exact le_trans (ih _ _ h) (by simp)
      · exact absurd h (by simp)

theorem utf8Drop_length_lt (s : List Char) (n : Nat) (s' : List Char)
    (hn : 1 ≤ n) (hs : s ≠ []) (h : utf8Drop n s = some s') :
    s'.length < s.length := by
  cases s with
  | nil => exact absurd rfl hs
  | cons c rest =>
    cases n with
    | zero => omega
    | succ m =>
      simp only [utf8Drop] at h
      split at h
      · exact Nat.lt_succ_of_le (utf8Drop_length_le rest _ _ h)
      · exact absurd h (by simp)

theorem utf8Drop_ne_nil (s : List Char) :
    ∀ (n : Nat) (s' : List Char), utf8Drop n s = some s' → n < utf8Len s → s' ≠ [] := by
  induction s with
  | nil =>
    intro n s' _ hlt
    simp [utf8Len] at hlt
  | cons c rest ih =>
    intro n s' h hlt
    cases n with
    | zero =>
      simp [utf8Drop] at h
      simp [← h]
    | succ m =>
      simp only [utf8Drop] at h
      split at h
      · rename_i hsize
        refine ih _ _ h ?_
        rw [utf8Len_cons] at hlt
        omega
      · exact absurd h (by simp)

theorem utf8Take_utf8Len_self (s : List Char) :
    utf8Take (utf8Len s) s = some s := by
  induction s with
  | nil => simp [utf8Len, utf8Take]
  | cons c rest ih =>
    have hpos : 0 < c.utf8Size := Char.utf8Size_pos c
    have hk : ∃ k, utf8Len (c :: rest) = k + 1 := ⟨utf8Len (c :: rest) - 1, by
      rw [utf8Len_cons]; omega⟩
    obtain ⟨k, hke⟩ := hk
    rw [hke]
    simp only [utf8Take]
    have hc : c.utf8Size ≤ k + 1 := by rw [utf8Len_cons] at hke; omega
    rw [if_pos hc]
    have : k + 1 - c.utf8Size = utf8Len rest := by rw [utf8Len_cons] at hke; omega
    rw [this, ih]
    rfl

theorem step_progress (E : Engine) (mw : Option ℚ) (st st' : LoopState)
    (hfb : forced_break_sane E) (hwrap : wrap_sane E)
    (hne : st.text ≠ [])
    (h : reconcile_step E mw st = .next st') :
    st'.text.length < st.text.length := by
  unfold reconcile_step at h
  simp only at h
  split at h
  · simp at h
  · rename_i flt hflt
    split at h
    · rename_i hN
      split at h
      · rename_i hK0
        split at h
        · simp at h
        · rename_i t' hdrop
          injection h with h
          subst h
          have hcl : 1 ≤ ((create_temp_layout E st.text mw).get_line 1).start_index :=
            hfb st.text (effective_width mw) hne hN hK0
          exact utf8Drop_length_lt st.text _ _ hcl hne hdrop
      · rename_i hK0
        split at h
        · simp at h
        · rename_i nt hdrop
          split at h
          · rename_i hempty
            have hlt : ((create_temp_layout E st.text mw).get_line 0).length < utf8Len st.text :=
              hwrap st.text (effective_width mw) hne hN
            have : nt ≠ [] := utf8Drop_ne_nil st.text _ _ hdrop hlt
            simp [List.isEmpty_iff] at hempty
            exact absurd hempty this
          · split at h
            · simp at h
            · rename_i wt hwt
              split at h
              · injection h with h
                subst h
                have hK1 : 1 ≤ ((create_temp_layout E st.text mw).get_line 0).length := by
                  omega
                exact utf8Drop_length_lt st.text _ _ hK1 hne hdrop
              · injection h with h
                subst h
                simp only [List.length_drop]
                have : 0 < st.text.length := List.length_pos.mpr hne
                have hK1 : 1 ≤ ((create_temp_layout E st.text mw).get_line 0).length := by
                  omega
                omega
    · simp at h

theorem run_loop_isSome (E : Engine) (mw : Option ℚ)
    (hfb : forced_break_sane E) (hwrap : wrap_sane E) :
    ∀ (fuel : Nat) (st : LoopState), st.text.length < fuel →
      (run_loop E mw fuel st).isSome = true := by
  intro fuel
  induction fuel with
  | zero => intro st h; omega
  | succ f ih =>
    intro st h
    unfold run_loop
    split
    · simp
    · rename_i hne
      have hne' : st.text ≠ [] := by
        simpa [List.isEmpty_iff] using hne
      cases hstep : reconcile_step E mw st with
      | exn => simp
      | done st1 => simp
      | next st1 =>
        simp only []
        refine ih st1 ?_
        have := step_progress E mw st st1 hfb hwrap hne' hstep
        omega

theorem step_diff_signs (E : Engine) (mw : Option ℚ) (st st' : LoopState)
    (hfb : forced_break_sane E) (hne : st.text ≠ [])
    (hcd : ∀ x ∈ st.cdiffs, x ≤ 0) (hlb : ∀ y ∈ st.lbdiffs, 0 ≤ y)
    (h : out_state (reconcile_step E mw st) = some st') :
    (∀ x ∈ st'.cdiffs, x ≤ 0) ∧ (∀ y ∈ st'.lbdiffs, 0 ≤ y) := by
  unfold reconcile_step at h
  simp only at h
  split at h
  · simp [out_state] at h
  · rename_i flt hflt
    split at h
    · rename_i hN
      split at h
      · rename_i hK0
        split at h
        · simp [out_state] at h
        · rename_i t' hdrop
          simp [out_state] at h
          subst h
          have hcl : 1 ≤ ((create_temp_layout E st.text mw).get_line 1).start_index :=
            hfb st.text (effective_width mw) hne hN hK0
          constructor
          · intro x hx
            simp at hx
            rcases hx with hx | hx
            · exact hcd x hx
            · omega
          · intro y hy
            simp at hy
            rcases hy with hy | hy
            · exact hlb y hy
            · omega
      · split at h
        · simp [out_state] at h
        · rename_i nt hdrop
          split at h
          · simp [out_state] at h
            subst h
            exact ⟨hcd, hlb⟩
          · split at h
            · simp [out_state] at h
            · rename_i wt hwt
              split at h
              · simp [out_state] at h
                subst h
                have hr := rstrip_spaces_length_le flt
                constructor
                · intro x hx
                  simp at hx
                  rcases hx with hx | hx
                  · exact hcd x hx
                  · omega
                · intro y hy
                  simp at hy
                  rcases hy with hy | hy
                  · exact hlb y hy
                  · omega
              · simp [out_state] at h
                subst h
                have hr := rstrip_spaces_length_le wt
                constructor
                · intro x hx
                  simp at hx
                  rcases hx with hx | hx
                  · exact hcd x hx
                  · omega
                · intro y hy
                  simp at hy
                  rcases hy with hy | hy
                  · exact hlb y hy
                  · omega
    · simp [out_state] at h
      subst h
      constructor
      · intro x hx
        simp at hx
        rcases hx with hx | hx
        · exact hcd x hx
        · omega
      · intro y hy
        simp at hy
        rcases hy with hy | hy
        · exact hlb y hy
        · omega

theorem run_loop_diff_signs (E : Engine) (mw : Option ℚ)
    (hfb : forced_break_sane E) :
    ∀ (fuel : Nat) (st : LoopState)
      (ls : List (List Char)) (cd lb : List Int),
      (∀ x ∈ st.cdiffs, x ≤ 0) → (∀ y ∈ st.lbdiffs, 0 ≤ y) →
      run_loop E mw fuel st = some (some (ls, cd, lb)) →
      (∀ x ∈ cd, x ≤ 0) ∧ (∀ y ∈ lb, 0 ≤ y) := by
  intro fuel
  induction fuel with
  | zero => intro st ls cd lb _ _ h; simp [run_loop] at h
  | succ f ih =>
    intro st ls cd lb hcd hlb h
    unfold run_loop at h
    split at h
    · simp at h
      obtain ⟨-, hcdeq, hlbeq⟩ := h
      subst hcdeq
      subst hlbeq
      exact ⟨hcd, hlb⟩
    · rename_i hne
      have hne' : st.text ≠ [] := by
        simpa [List.isEmpty_iff] using hne
      cases hstep : reconcile_step E mw st with
      | exn => rw [hstep] at h; simp at h
      | done st1 =>
        rw [hstep] at h
        simp at h
        obtain ⟨-, hcdeq, hlbeq⟩ := h
        have hsigns := step_diff_signs E mw st st1 hfb hne' hcd hlb (by rw [hstep]; rfl)
        subst hcdeq
        subst hlbeq
        exact hsigns
      | next st1 =>
        rw [hstep] at h
        have hsigns := step_diff_signs E mw st st1 hfb hne' hcd hlb (by rw [hstep]; rfl)
        exact ih st1 ls cd lb hsigns.1 hsigns.2 h

theorem Eone_forced_break_sane : forced_break_sane Eone := by
  intro t w _ hc _
  simp [Eone, Layout.get_line_count] at hc

theorem Eone_wrap_sane : wrap_sane Eone := by
  intro t w _ hc
  simp [Eone, Layout.get_line_count] at hc

theorem Eidem_forced_break_sane : forced_break_sane Eidem := by
  intro t w ht hc h0
  by_cases h1 : t = "hello world".toList
  · subst h1
    simp [Eidem, Layout.get_line] at h0
  · by_cases h2 : t = "hello\nworld".toList
    · subst h2
      simp [Eidem, Layout.get_line] at h0
    · by_cases h3 : t = "\nworld".toList
      · subst h3
        simp [Eidem, Layout.get_line]
      · simp only [Eidem] at hc
        rw [if_neg h1, if_neg h2, if_neg h3] at hc
        simp [Layout.get_line_count] at hc

theorem Eidem_wrap_sane : wrap_sane Eidem := by
  intro t w ht hc
  by_cases h1 : t = "hello world".toList
  · subst h1
    simp [Eidem, Layout.get_line]
    decide
  · by_cases h2 : t = "hello\nworld".toList
    · subst h2
      simp [Eidem, Layout.get_line, h1]
      decide
    · by_cases h3 : t = "\nworld".toList
      · subst h3
        simp [Eidem, Layout.get_line, h1, h2]
        decide
      · simp only [Eidem] at hc
        rw [if_neg h1, if_neg h2, if_neg h3] at hc
        simp [Layout.get_line_count] at hc

theorem step_single_line (E : Engine) (mw : Option ℚ) (st : LoopState)
    (hcount : (create_temp_layout E st.text mw).get_line_count = 1)
    (hlen : ((create_temp_layout E st.text mw).get_line 0).length = utf8Len st.text) :
    reconcile_step E mw st =
      .done ⟨st.text, st.lines ++ [st.text],
             st.cdiffs ++ [(st.text.length : Int) - (st.text.length : Int)],
             st.lbdiffs ++ [0]⟩ := by
  unfold reconcile_step
  simp only [hlen, hcount, utf8Take_utf8Len_self]
  simp

/-- Claim C9: in the reconciliation loop of `create_layout`, every completed
loop iteration (a `.next` fall-through or the `.done` break, i.e. any
outcome other than an uncaught exception) preserves the equality of the
lengths of the three accumulator sequences `lines`, `character_differences`
and `line_break_differences`; `line_break_differences` may trail only
transiently inside the iteration body, never once it completes. -/
theorem C9_accumulators_equal_length (E : Engine) (mw : Option ℚ)
    (st st' : LoopState)
    (h1 : st.lines.length = st.cdiffs.length)
    (h2 : st.cdiffs.length = st.lbdiffs.length)
    (h : out_state (reconcile_step E mw st) = some st') :
    st'.lines.length = st'.cdiffs.length ∧ st'.cdiffs.length = st'.lbdiffs.length := by
  unfold reconcile_step at h
  simp only at h
  split at h
  · simp [out_state] at h
  · split at h
    · split at h
      · split at h
        · simp [out_state] at h
        · simp [out_state] at h
          subst h
          simp [h1, h2]
      · split at h
        · simp [out_state] at h
        · split at h
          · simp [out_state] at h
            subst h
            exact ⟨h1, h2⟩
          · split at h
            · simp [out_state] at h
            · split at h
              · simp [out_state] at h
                subst h
                simp [h1, h2]
              · simp [out_state] at h
                subst h
                simp [h1, h2]
    · simp [out_state] at h
      subst h
      simp [h1, h2]

/-- Witness for claim C9 at a concrete input: the single-line iteration of
the engine `Eone` on the text `ab` completes with all three accumulators of
length one. -/
theorem C9_accumulators_equal_length_witness :
    (([] : List (List Char)).length = ([] : List Int).length ∧
     ([] : List Int).length = ([] : List Int).length ∧
     out_state (reconcile_step Eone (some 1) ⟨"ab".toList, [], [], []⟩) =
       some ⟨"ab".toList, ["ab".toList], [0], [0]⟩) ∧
    (["ab".toList].length = [(0 : Int)].length ∧
     [(0 : Int)].length = [(0 : Int)].length) :=
  ⟨⟨rfl, rfl, by decide⟩,
   C9_accumulators_equal_length Eone (some 1) ⟨"ab".toList, [], [], []⟩
     ⟨"ab".toList, ["ab".toList], [0], [0]⟩ rfl rfl (by decide)⟩

/-- Claim C2: for a nonempty input text and a truthy `max_width`, the
reconciliation loop of `create_layout` terminates, because under the Pango
sanity facts (`forced_break_sane`, `wrap_sane`) every completed iteration
strictly shortens the remaining text (or the iteration raises, which also
ends the loop).  `create_layout_acc` runs the loop with fuel
`text.length + 1`, so this theorem states exactly that the number of
iterations is bounded by the length of the input text. -/
theorem C2_loop_terminates (E : Engine) (text : List Char) (mw : Option ℚ)
    (hfb : forced_break_sane E) (hwrap : wrap_sane E)
    (htext : text ≠ []) (hmw : is_truthy mw = true) :
    (create_layout_acc E text mw).isSome = true :=
  run_loop_isSome E mw hfb hwrap (text.length + 1) ⟨text, [], [], []⟩
    (Nat.lt_succ_self _)

/-- Witness for claim C2 at a concrete input: the sane engine `Eone`, the
text `ab` and `max_width = 1`. -/
theorem C2_loop_terminates_witness :
    (forced_break_sane Eone ∧ wrap_sane Eone ∧
     "ab".toList ≠ [] ∧ is_truthy (some 1) = true) ∧
    (create_layout_acc Eone ("ab".toList) (some 1)).isSome = true :=
  ⟨⟨Eone_forced_break_sane, Eone_wrap_sane, by decide, by decide⟩,
   C2_loop_terminates Eone ("ab".toList) (some 1)
     Eone_forced_break_sane Eone_wrap_sane (by decide) (by decide)⟩

/-- Claim C10: under the Pango sanity fact `forced_break_sane`, every element
of the `character_differences` list returned by `create_layout` is at most 0
(corrections only ever remove stripped characters) and every element of the
`line_break_differences` list is at least 0 (corrections only ever add the
bytes of the consumed break character). -/
theorem C10_diff_signs (E : Engine) (text : List Char) (mw : Option ℚ)
    (hfb : forced_break_sane E)
    (ly : Layout) (cd lb : List Int)
    (h : create_layout E text mw = some (some (ly, cd, lb))) :
    (∀ x ∈ cd, x ≤ 0) ∧ (∀ y ∈ lb, 0 ≤ y) := by
  unfold create_layout at h
  split at h
  · cases hacc : create_layout_acc E text mw with
    | none => rw [hacc] at h; simp at h
    | some o =>
      cases o with
      | none => rw [hacc] at h; simp at h
      | some acc =>
        obtain ⟨ls, cd1, lb1⟩ := acc
        rw [hacc] at h
        simp at h
        obtain ⟨-, hcdeq, hlbeq⟩ := h
        subst hcdeq
        subst hlbeq
        exact run_loop_diff_signs E mw hfb (text.length + 1) ⟨text, [], [], []⟩
          ls cd1 lb1 (by simp) (by simp) hacc
  · simp at h
    obtain ⟨-, hcdeq, hlbeq⟩ := h
    subst hcdeq
    subst hlbeq
    constructor
    · intro x hx
      simp at hx
      omega
    · intro y hy
      simp at hy
      omega

/-- Witness for claim C10 at a concrete input: the sane engine `Eone`, the
text `ab` and `max_width = 1`. -/
theorem C10_diff_signs_witness :
    (forced_break_sane Eone ∧
     create_layout Eone ("ab".toList) (some 1) =
       some (some (⟨[⟨2, 0⟩]⟩, [0], [0]))) ∧
    ((∀ x ∈ ([0] : List Int), x ≤ 0) ∧ (∀ y ∈ ([0] : List Int), 0 ≤ y)) :=
  ⟨⟨Eone_forced_break_sane, by decide⟩,
   C10_diff_signs Eone ("ab".toList) (some 1) Eone_forced_break_sane
     ⟨[⟨2, 0⟩]⟩ [0] [0] (by decide)⟩

/-- Claim C5: whenever the shaped layout of the remaining text reports more
than one line and the first line byte length is zero, the iteration appends
the literal string of one newline character to the accepted lines, appends 0
to `character_differences`, appends (second line byte start offset minus 1)
to `line_break_differences`, and continues with the remaining text starting
at the second line byte start offset (the byte slice succeeding is a
hypothesis; if it cut a UTF-8 sequence the iteration would raise instead). -/
theorem C5_forced_break_iteration (E : Engine) (mw : Option ℚ)
    (st : LoopState) (t' : List Char)
    (hN : 1 < (create_temp_layout E st.text mw).get_line_count)
    (hK : ((create_temp_layout E st.text mw).get_line 0).length = 0)
    (hdrop : utf8Drop ((create_temp_layout E st.text mw).get_line 1).start_index st.text
      = some t') :
    reconcile_step E mw st =
      .next ⟨t', st.lines ++ [['\n']], st.cdiffs ++ [0],
             st.lbdiffs ++
               [(((create_temp_layout E st.text mw).get_line 1).start_index : Int) - 1]⟩ := by
  unfold reconcile_step
  simp only [hK, hN, hdrop, utf8Take, if_pos, if_true]

/-- Witness for claim C5 at a concrete input: the constant forced-break
engine `Efb` on the text of a newline followed by `a`. -/
theorem C5_forced_break_iteration_witness :
    (1 < (create_temp_layout Efb ("\na".toList) (some 1)).get_line_count ∧
     ((create_temp_layout Efb ("\na".toList) (some 1)).get_line 0).length = 0 ∧
     utf8Drop ((create_temp_layout Efb ("\na".toList) (some 1)).get_line 1).start_index
       ("\na".toList) = some ("a".toList)) ∧
    reconcile_step Efb (some 1) ⟨"\na".toList, [], [], []⟩ =
      .next ⟨"a".toList, [['\n']], [0], [0]⟩ :=
  ⟨⟨by decide, by decide, by decide⟩,
   C5_forced_break_iteration Efb (some 1) ⟨"\na".toList, [], [], []⟩ ("a".toList)
     (by decide) (by decide) (by decide)⟩

/-- Claim C6: `split_first_line` computes `resume_at` from the layout
returned by `create_layout` as follows: when the layout reports two or more
lines, `resume_at` is the byte start offset of the second line plus the
second entry of `line_break_differences` when that list has more than one
element; with fewer than two lines, `resume_at` is none.  (The first entry
of `character_differences` must exist for the call to return at all; the
`length` component is the first line byte length minus that entry.) -/
theorem C6_resume_at (E : Engine) (text : List Char) (mw : Option ℚ)
    (layout : Layout) (cd0 : Int) (cdrest lb : List Int)
    (h : create_layout E text mw = some (some (layout, cd0 :: cdrest, lb))) :
    split_first_line E text mw =
      some (some ⟨layout,
        ((layout.get_line 0).length : Int) - cd0,
        if 2 ≤ layout.get_line_count then
          some (((layout.get_line 1).start_index : Int) +
                (if 1 < lb.length then lb.getD 1 0 else 0))
        else
          none⟩) := by
  unfold split_first_line
  rw [h]

/-- Witness for claim C6 at a concrete input: the engine `Eone` on the text
`ab`, whose layout has one line, hence `resume_at = none`. -/
theorem C6_resume_at_witness :
    create_layout Eone ("ab".toList) (some 1) =
      some (some (⟨[⟨2, 0⟩]⟩, [0], [0])) ∧
    split_first_line Eone ("ab".toList) (some 1) =
      some (some ⟨⟨[⟨2, 0⟩]⟩, 2, none⟩) :=
  ⟨by decide,
   C6_resume_at Eone ("ab".toList) (some 1) ⟨[⟨2, 0⟩]⟩ 0 [] [0] (by decide)⟩

/-- Claim C8: in `create_temp_layout` a `max_width` at or above the
fixed-point representable limit `2 ** 21 = 2097152` is not an error: the
layout width is simply left unconstrained (the same shape call as passing no
width at all) and the function returns normally; only a non-`None`
`max_width` strictly below the limit constrains the layout, to the
fixed-point value `units_from_double max_width`. -/
theorem C8_width_limit_unconstrained (E : Engine) (text : List Char) (w : ℚ) :
    (2097152 ≤ w → create_temp_layout E text (some w) = E.shape text none) ∧
    (w < 2097152 →
      create_temp_layout E text (some w) = E.shape text (some (units_from_double w))) := by
  constructor
  · intro hw
    simp only [create_temp_layout, effective_width]
    rw [if_neg (not_lt.mpr hw)]
  · intro hw
    simp only [create_temp_layout, effective_width]
    rw [if_pos hw]

/-- Witness for claim C8 at concrete inputs: width exactly at the limit is
unconstrained, width 5 is constrained to 5120 fixed-point units. -/
theorem C8_width_limit_unconstrained_witness :
    ((2097152 : ℚ) ≤ 2097152 ∧
     create_temp_layout Eone [] (some 2097152) = Eone.shape [] none) ∧
    ((5 : ℚ) < 2097152 ∧
     create_temp_layout Eone [] (some 5) = Eone.shape [] (some (units_from_double 5))) :=
  ⟨⟨by decide, (C8_width_limit_unconstrained Eone [] 2097152).1 (by decide)⟩,
   ⟨by decide, (C8_width_limit_unconstrained Eone [] 5).2 (by decide)⟩⟩

/-- Claim C1 (code bug): with an empty text and a truthy `max_width` the
`while text:` loop of `create_layout` never runs, so `character_differences`
comes back empty and `split_first_line` raises `IndexError` at
`char_diff[0]` (`text.py:297`) — modelled as the `some none` outcome — for
every engine and every truthy width, instead of returning the single empty
line with length 0 and `resume_at = None` that the claim describes (which
the code does produce when `max_width` is falsy). -/
theorem C1_empty_text_truthy_width_raises (E : Engine) (w : ℚ) (hw : w ≠ 0) :
    split_first_line E [] (some w) = some none := by
  have ht : is_truthy (some w) = true := by simp [is_truthy, hw]
  have hacc : create_layout_acc E [] (some w) = some (some ([], [], [])) := rfl
  unfold split_first_line create_layout
  rw [ht]
  simp only [hacc]
  simp

/-- Witness for claim C1 at a concrete input: the engine `Eone` and
`max_width = 1`. -/
theorem C1_empty_text_truthy_width_raises_witness :
    ((1 : ℚ) ≠ 0) ∧ split_first_line Eone [] (some 1) = some none :=
  ⟨by decide, C1_empty_text_truthy_width_raises Eone 1 (by decide)⟩

/-- Claim C3 (code bug): in the word-overflow fit branch the source advances
the text with `text = text[first_line_length + word_length:]`
(`text.py:259`), a Python character slice indexed by a sum of UTF-8 byte
lengths, where every other advance in the loop slices the UTF-8 encoding.
On the Pango-consistent engine `Ec3` and the text starting with a two-byte
character (eacute, then `a b c`): the first line is the first 4 bytes
(3 characters), the isolated next word is `b` plus its trailing space
(2 bytes), and the tentative concatenation fits, so the loop drops
4 + 2 = 6 characters — all 6 characters of the text — and terminates with
the final `c` lost from the accepted lines, whereas dropping 6 UTF-8 bytes
as the claim states would leave `c` to be processed. -/
theorem C3_word_advance_char_slice :
    create_layout_acc Ec3 ("éa b c".toList) (some 4) =
      some (some (["éa b".toList], [-1], [0])) ∧
    ("éa b c".toList).drop (4 + 2) = [] ∧
    utf8Drop (4 + 2) ("éa b c".toList) = some ("c".toList) :=
  ⟨by decide, by decide, by decide⟩

/-- Claim C4 counterexample: the claim says the next word is obtained by
shaping the remaining text at unconstrained width, i.e. that the step equals
the spec-modelled `reconcile_step_word_at` with `ww = none`.  On the engine
`Ec4` and remaining text `a bb cc` they differ: the source shapes the
remainder `bb cc` at width 0, obtaining the word `bb ` whose stripped form
fits after the first line, while an unconstrained shape returns the whole
`bb cc` as one line, whose stripped form does not fit. -/
theorem C4_counterexample :
    reconcile_step Ec4 (some 2) ⟨"a bb cc".toList, [], [], []⟩ ≠
      reconcile_step_word_at Ec4 none (some 2) ⟨"a bb cc".toList, [], [], []⟩ := by
  decide

/-- Claim C4 as amended: the next word of the remaining text is obtained by
shaping the remaining text in isolation at `max_width = 0` — which
`create_temp_layout` installs as the zero fixed-point width constraint
`some 0`, not as an unconstrained width — and taking the first produced
line byte length and text. -/
theorem C4_word_shaped_at_zero_width (E : Engine) (mw : Option ℚ)
    (st : LoopState) :
    reconcile_step E mw st = reconcile_step_word_at E (some 0) mw st := rfl

/-- Claim C7 counterexample: re-running the reconciliation loop on the
newline-joined output of a previous run does not reproduce the line
boundaries, even on the Pango-consistent sane engine `Eidem`.  The first run
on `hello world` accepts the lines `hello` and `world`; re-running on the
joined text (`hello` newline `world`) turns the embedded newline into a
forced-break record, accepting `hello`, a literal newline line, and `world`
— one more line, hence different boundaries. -/
theorem C7_counterexample :
    (forced_break_sane Eidem ∧ wrap_sane Eidem) ∧
    create_layout_acc Eidem ("hello world".toList) (some 7) =
      some (some (["hello".toList, "world".toList], [-1, 0], [0, 0])) ∧
    joinNL ["hello".toList, "world".toList] = "hello\nworld".toList ∧
    create_layout_acc Eidem ("hello\nworld".toList) (some 7) =
      some (some (["hello".toList, ['\n'], "world".toList], [0, 0, 0], [0, 0, 0])) ∧
    (["hello".toList, "world".toList] : List (List Char)) ≠
      ["hello".toList, ['\n'], "world".toList] :=
  ⟨⟨Eidem_forced_break_sane, Eidem_wrap_sane⟩, by decide, by decide, by decide, by decide⟩

/-- Claim C7 as amended: the second shaping pass is idempotent exactly in
the case the counterexample leaves, namely when the engine shapes the input
as a single line covering the whole text (then the loop accepts the whole
text as its only line, the newline-joined output is the input itself, and
re-running the loop is the identical computation).  When a run accepts two
or more lines, the joined output contains newline characters that a re-run
converts into additional forced-break line records, so boundaries are not
preserved in general. -/
theorem C7_idempotent_single_line (E : Engine) (text : List Char) (mw : Option ℚ)
    (hcount : (create_temp_layout E text mw).get_line_count = 1)
    (hlen : ((create_temp_layout E text mw).get_line 0).length = utf8Len text) :
    ∀ ls cd lb, create_layout_acc E text mw = some (some (ls, cd, lb)) →
      create_layout_acc E (joinNL ls) mw = create_layout_acc E text mw := by
  intro ls cd lb h
  have hjoin : joinNL ls = text := by
    by_cases hte : text = []
    · subst hte
      have hacc : create_layout_acc E [] mw = some (some ([], [], [])) := rfl
      rw [hacc] at h
      simp at h
      obtain ⟨hls, -, -⟩ := h
      subst hls
      simp [joinNL]
    · have hstep := step_single_line E mw ⟨text, [], [], []⟩ hcount hlen
      unfold create_layout_acc at h
      unfold run_loop at h
      rw [if_neg (by simp [List.isEmpty_iff, hte])] at h
      rw [hstep] at h
      simp at h
      obtain ⟨hls, -, -⟩ := h
      subst hls
      simp [joinNL]
  rw [hjoin]

/-- Witness for the amended claim C7 at a concrete input: the engine `Eone`
on the text `a` at `max_width = 1`. -/
theorem C7_idempotent_single_line_witness :
    ((create_temp_layout Eone ("a".toList) (some 1)).get_line_count = 1 ∧
     ((create_temp_layout Eone ("a".toList) (some 1)).get_line 0).length =
       utf8Len ("a".toList) ∧
     create_layout_acc Eone ("a".toList) (some 1) =
       some (some (["a".toList], [0], [0]))) ∧
    create_layout_acc Eone (joinNL ["a".toList]) (some 1) =
      create_layout_acc Eone ("a".toList) (some 1) :=
  ⟨⟨by decide, by decide, by decide⟩,
   C7_idempotent_single_line Eone ("a".toList) (some 1) (by decide) (by decide)
     ["a".toList] [0] [0] (by decide)⟩
